import Mathlib

/-!
# Verification of the Document AI layout reconstruction engine

A shallow embedding of `src/index.ts`: the token extractor (`processTokens`),
the vertical-overlap line clusterer (`makeLinesWithIntersection`), the slot
model (`computeSlots`), the renderer (`renderLinesWithSlots`) and the page
assembler (`processJSON`).

Modelling conventions:
* JavaScript numbers are modelled by `ℚ`.  The IEEE sentinels `Infinity` /
  `-Infinity` used as fold seeds for `left`, `right` and `rowHeight` are
  modelled by `Option ℚ` (`none` encodes the infinite seed); they leak out of
  `processTokens` only on pages that yield zero words, in which case every
  downstream consumer is vacuous (there are no lines to render), so the
  `getD 0` bridging in `processPage` is observationally equivalent.
* Strings are modelled as `List Char`; `String.prototype.slice` (with the
  in-range, non-negative indices produced by text anchors) is take/drop,
  `trimEnd` drops trailing whitespace.
* `Array.prototype.sort` is a stable sort; we model it by `List.insertionSort`,
  which is also stable, hence produces the identical permutation for the
  ascending numeric comparators used by the source.
* Protobuf message fields are optional; we model each field the source
  null-checks as an `Option`.  `normalizedVertices[0]` / `[2]` are read with
  the source's non-null assertion; we model the in-range case with `getD`.
* The renderer's slot arithmetic is exercised at `slot = 0` by real inputs
  (a significant line whose median word width is `0` collapses `globalSlot`
  to `0`).  `lineTokens` / `renderLineText` model the all-finite `slot ≠ 0`
  path with exact ℚ division; `lineTokensJS` / `renderLineTextJS` model the
  full IEEE semantics (`NaN`, the infinities, and the `RangeError` thrown by
  `' '.repeat`) and are proved to agree with the finite path whenever
  `slot ≠ 0`.
-/

namespace LayoutDoc

/-! ## Data model: the protobuf-shaped input records -/

/-- A text segment of a text anchor: a half-open byte range `[startIndex, endIndex)`
into the document's full text.  The source reads `Number(segment.startIndex ?? 0)`. -/
structure TextSegment where
  startIndex : Option ℕ
  endIndex : Option ℕ
deriving DecidableEq, Repr

/-- A text anchor: a list of segments into the document text. -/
structure TextAnchor where
  textSegments : Option (List TextSegment)
deriving DecidableEq, Repr

/-- A normalized bounding-polygon vertex (coordinates in `[0,1]`).  The source
reads `.x!` / `.y!` (non-null assertions), so we model the coordinates as
required fields. -/
structure NormalizedVertex where
  x : ℚ
  y : ℚ
deriving DecidableEq, Repr

/-- A bounding polygon; the source only uses `normalizedVertices`. -/
structure BoundingPoly where
  normalizedVertices : Option (List NormalizedVertex)
deriving DecidableEq, Repr

/-- The layout of a page element: text anchor plus bounding polygon. -/
structure TokenLayout where
  textAnchor : Option TextAnchor
  boundingPoly : Option BoundingPoly
deriving DecidableEq, Repr

/-- One entry of `page.lines`: the source only touches `.layout`. -/
structure PageLine where
  layout : Option TokenLayout
deriving DecidableEq, Repr

/-- Page pixel dimensions. -/
structure Dimension where
  width : Option ℚ
  height : Option ℚ
deriving DecidableEq, Repr

/-- A page record: pixel dimensions plus the token ("lines") list. -/
structure Page where
  dimension : Option Dimension
  lines : Option (List PageLine)
deriving DecidableEq, Repr

/-- A parsed Document AI response: the full text buffer plus the page list.
The source asserts `document.text!`, so `text` is a required field. -/
structure IDocument where
  text : List Char
  pages : Option (List Page)
deriving DecidableEq, Repr

/-! ## TokenExtractor -/

/-- JavaScript `String.prototype.slice(start, end)` for `0 ≤ start ≤ end`:
the characters at positions `[start, end)`, clamped to the string. -/
def jsSlice (s : List Char) (start stop : ℕ) : List Char :=
  (s.take stop).drop start

/-- Resolve a token's text: concatenate the document-text slices addressed by
the anchor's segment list; `""` when the anchor or its segment list is absent. -/
def extractTextFromLayout (documentText : List Char) (textAnchor : Option TextAnchor) :
    List Char :=
  match textAnchor with
  | none => []
  | some anchor =>
    match anchor.textSegments with
    | none => []
    | some segs =>
      segs.foldl
        (fun out seg =>
          out ++ jsSlice documentText (seg.startIndex.getD 0) (seg.endIndex.getD 0))
        []

/-- A positioned word, as pushed by `processTokens`: resolved text, left edge,
top and bottom of the bounding box, and width (`x1 - x0`). -/
structure Word where
  word : List Char
  x0 : ℚ
  originalYTop : ℚ
  originalYBottom : ℚ
  wordWidth : ℚ
deriving DecidableEq, Repr

/-- The extractor's running state and result: the word list plus the page
extrema.  The source keeps these as plain numbers seeded with `Infinity`
(`left`, `rowHeight`) and `-Infinity` (`right`); `none` encodes the still
infinite seed. -/
structure TokenScan where
  words : List Word
  left : Option ℚ
  right : Option ℚ
  rowHeight : Option ℚ
deriving DecidableEq, Repr

/-- Running minimum for `left`: `if (x0 < left) left = x0`, with `none` as the
`Infinity` seed. -/
def minLeft : Option ℚ → ℚ → Option ℚ
  | none, x => some x
  | some l, x => some (if x < l then x else l)

/-- Running maximum for `right`: `if (x1 > right) right = x1`, with `none` as
the `-Infinity` seed. -/
def maxRight : Option ℚ → ℚ → Option ℚ
  | none, x => some x
  | some r, x => some (if x > r then x else r)

/-- Running minimum for `rowHeight`: `if (rowHeight > wordHeight) rowHeight =
wordHeight`, with `none` as an `Infinity` current value. -/
def minRowHeight : Option ℚ → ℚ → Option ℚ
  | none, h => some h
  | some r, h => some (if r > h then h else r)

/-- The seed of the `rowHeight` running minimum:
`page.dimension?.height || Infinity` (`none` encodes `Infinity`, produced when
the dimension or its height is missing, or the height is `0`). -/
def rowHeightSeed (page : Page) : Option ℚ :=
  match page.dimension with
  | none => none
  | some d =>
    match d.height with
    | none => none
    | some h => if h = 0 then none else some h

/-- One iteration of the `processTokens` loop body: skip the token when its
layout, resolved text, bounding polygon, vertices or the page dimension is
missing; otherwise scale vertices 0 and 2 by the page dimensions, push the
word and update the `left` / `right` / `rowHeight` extrema. -/
def processTokensStep (document : IDocument) (page : Page) (st : TokenScan)
    (token : PageLine) : TokenScan :=
  match token.layout with
  | none => st
  | some layout =>
    let tokenText := extractTextFromLayout document.text layout.textAnchor
    if tokenText = [] then st
    else
      match layout.boundingPoly with
      | none => st
      | some boundingPoly =>
        match boundingPoly.normalizedVertices with
        | none => st
        | some vertices =>
          match page.dimension with
          | none => st
          | some dim =>
            let pageWidth := dim.width.getD 0
            let pageHeight := dim.height.getD 0
            let v0 := vertices.getD 0 ⟨0, 0⟩
            let v2 := vertices.getD 2 ⟨0, 0⟩
            let x0 := v0.x * pageWidth
            let y0 := v0.y * pageHeight
            let x1 := v2.x * pageWidth
            let y1 := v2.y * pageHeight
            let wordWidth := x1 - x0
            let wordHeight := y1 - y0
            { words := st.words ++ [⟨tokenText, x0, y0, y1, wordWidth⟩]
              left := minLeft st.left x0
              right := maxRight st.right x1
              rowHeight := minRowHeight st.rowHeight wordHeight }

/-- The token extractor: fold the loop body over `page.lines ?? []`, starting
from the empty word list and the seeds described above. -/
def processTokens (document : IDocument) (page : Page) : TokenScan :=
  (page.lines.getD []).foldl (processTokensStep document page)
    { words := [], left := none, right := none, rowHeight := rowHeightSeed page }

/-! ## LineClusterer -/

/-- A visual line: member words plus the running `top = min yTop` /
`bottom = max yBottom` bounds. -/
structure Line where
  words : List Word
  top : ℚ
  bottom : ℚ
deriving DecidableEq, Repr

/-- The clamped integer overlap percentage between a line's vertical interval
and a word's:
`Math.max(0, Math.min(100, Math.round(overlap / wordHeight * 100)))`, with
`overlap = min(line.bottom, w.yBottom) - max(line.top, w.yTop)`.
JavaScript `Math.round` rounds half toward `+∞`, exactly Mathlib's `round`. -/
def overlapPercentage (line : Line) (w : Word) : ℤ :=
  let overlapTop := max line.top w.originalYTop
  let overlapBottom := min line.bottom w.originalYBottom
  let overlap := overlapBottom - overlapTop
  let wordHeight := w.originalYBottom - w.originalYTop
  max 0 (min 100 (round (overlap / wordHeight * 100)))

/-- Widen an existing line with a word: push the word and extend the line's
`top` / `bottom` bounds if needed. -/
def widenLine (line : Line) (w : Word) : Line :=
  { line with
    words := line.words ++ [w]
    top := if w.originalYTop < line.top then w.originalYTop else line.top
    bottom := if w.originalYBottom > line.bottom then w.originalYBottom else line.bottom }

/-- The body of the clusterer's word loop, as a scan over the line list in
creation order: a word of non-positive height skips the comparison with every
line (the `continue` in the source) and therefore falls through to the
new-line branch; otherwise the first line whose overlap percentage reaches 65
is widened in place; when the scan exhausts the list, a new singleton line is
appended at the end. -/
def insertWord (w : Word) : List Line → List Line
  | [] => [⟨[w], w.originalYTop, w.originalYBottom⟩]
  | line :: rest =>
    if w.originalYBottom - w.originalYTop ≤ 0 then line :: insertWord w rest
    else if 65 ≤ overlapPercentage line w then widenLine line w :: rest
    else line :: insertWord w rest

/-- The line clusterer: sort words by `originalYTop` ascending (stable, as
`Array.prototype.sort`), insert each word in turn, then sort the lines by
`top` ascending and each line's words by `x0` ascending. -/
def makeLinesWithIntersection (words : List Word) : List Line :=
  (List.insertionSort (fun a b : Line => a.top ≤ b.top)
      ((List.insertionSort (fun a b : Word => a.originalYTop ≤ b.originalYTop)
          words).foldl
        (fun lines w => insertWord w lines) [])).map
    fun line =>
      { line with
        words := List.insertionSort (fun a b : Word => a.x0 ≤ b.x0) line.words }

/-! ## SlotModel -/

/-- The body of `computeSlots`' per-line loop: record `[min, median, max]` of
the line's sorted word widths (`[1, 1, 1]` for a wordless line), and lower the
global slot to the line's median width when the line is significant (its
width sum is at least 30% of `usedWidth`) and the median is smaller.  The
source calls the significance quotient `lineWidthRatio`. -/
def computeSlotsStep (usedWidth : ℚ) (acc : ℚ × List (ℚ × ℚ × ℚ)) (line : Line) :
    ℚ × List (ℚ × ℚ × ℚ) :=
  let globalSlot := acc.1
  let lineSlots := acc.2
  if line.words.length < 1 then (globalSlot, lineSlots ++ [(1, 1, 1)])
  else
    let widths := List.insertionSort (fun a b => a ≤ b) (line.words.map fun w => w.wordWidth)
    let minW := widths.getD 0 0
    let maxW := widths.getD (widths.length - 1) 0
    let mid := widths.length / 2
    let median :=
      if widths.length % 2 = 0 ∧ 0 < mid then (widths.getD (mid - 1) 0 + widths.getD mid 0) / 2
      else widths.getD mid 0
    let lineSum := widths.foldl (fun acc w => acc + w) 0
    let lineFrac := lineSum / usedWidth
    let newSlot := if 3 / 10 ≤ lineFrac ∧ median < globalSlot then median else globalSlot
    (newSlot, lineSlots ++ [(minW, median, maxW)])

/-- The slot model: start from `globalSlot = usedWidth = right - left` and fold
the per-line step over the lines, returning the global slot and the per-line
`[min, median, max]` triples. -/
def computeSlots (lines : List Line) (left right : ℚ) : ℚ × List (ℚ × ℚ × ℚ) :=
  let usedWidth := right - left
  lines.foldl (computeSlotsStep usedWidth) (usedWidth, [])

/-! ## LineRenderer -/

/-- The whitespace class trimmed by JavaScript `trimEnd` (the members that can
occur in our `List Char` texts). -/
def jsIsWhitespace (c : Char) : Bool :=
  c = ' ' || c = '\t' || c = '\n' || c = '\r' || c = '\x0b' || c = '\x0c'

/-- JavaScript `String.prototype.trimEnd`: drop trailing whitespace. -/
def jsTrimEnd (s : List Char) : List Char :=
  (s.reverse.dropWhile jsIsWhitespace).reverse

/-- `w.word.replace(/\n/g, ' ')`: replace every newline by a space. -/
def replaceNewlines (s : List Char) : List Char :=
  s.map fun c => if c = '\n' then ' ' else c

/-- One iteration of the renderer's word loop, producing the word's leading
space count and its newline-cleaned text while advancing the slot cursor:
`slotIndex = ⌊(x0 - left) / slot⌋`, `spaceCount = slotIndex - lastPrintedSlotIndex`
raised to at least `1`, cursor advance `slotIndex + ⌈wordWidth / slot⌉`.
This ℚ form is exact for every `slot ≠ 0`; the reachable `slot = 0` case
takes the IEEE `NaN`/`Infinity` path, modelled faithfully by
`lineTokensStepJS` below and proved to agree with this step whenever
`slot ≠ 0` (`lineTokensJS_eq`). -/
def lineTokensStep (left slot : ℚ) (acc : List (ℤ × List Char) × ℤ) (w : Word) :
    List (ℤ × List Char) × ℤ :=
  let toks := acc.1
  let lastPrintedSlotIndex := acc.2
  let offset := w.x0 - left
  let slotIndex := ⌊offset / slot⌋
  let spaceCount0 := slotIndex - lastPrintedSlotIndex
  let spaceCount := if spaceCount0 < 1 then 1 else spaceCount0
  let wordSlotSpan := ⌈w.wordWidth / slot⌉
  (toks ++ [(spaceCount, replaceNewlines w.word)], slotIndex + wordSlotSpan)

/-- The per-line token stream: the space count and text emitted for each word
in order, starting from `lastPrintedSlotIndex = 0`. -/
def lineTokens (left slot : ℚ) (ws : List Word) : List (ℤ × List Char) :=
  (ws.foldl (lineTokensStep left slot) ([], 0)).1

/-- Concatenate a token stream into the line's raw text:
`text += ' '.repeat(spaceCount); text += cleanedWord`. -/
def lineText (toks : List (ℤ × List Char)) : List Char :=
  toks.foldl (fun text t => text ++ List.replicate t.1.toNat ' ' ++ t.2) []

/-- Render one line: sort its words by `x0` (the source sorts again inside the
renderer), emit the spaced token stream, and trim trailing whitespace. -/
def renderLineText (left slot : ℚ) (line : Line) : List Char :=
  let words := List.insertionSort (fun a b => a.x0 ≤ b.x0) line.words
  jsTrimEnd (lineText (lineTokens left slot words))

/-- One iteration of the renderer's line loop: if a previous line exists and
this line's top is more than `1.5 × rowHeight` below its bottom, push one
blank line; then push the line's rendered text and remember its bottom.
`none` models the `-Infinity` initialisation of `lastLineBottom`. -/
def renderStep (left globalSlot rowHeight : ℚ)
    (acc : List (List Char) × Option ℚ) (line : Line) :
    List (List Char) × Option ℚ :=
  let outputLines := acc.1
  let withGap :=
    match acc.2 with
    | none => outputLines
    | some lastLineBottom =>
      if line.top - lastLineBottom > 3 / 2 * rowHeight then outputLines ++ [[]]
      else outputLines
  (withGap ++ [renderLineText left globalSlot line], some line.bottom)

/-- The renderer: fold the line loop over the lines.  The `lineSlots` argument
is accepted but unused, as in the source (`const slot = globalSlot`). -/
def renderLinesWithSlots (lines : List Line) (left globalSlot : ℚ)
    (lineSlots : List (ℚ × ℚ × ℚ)) (rowHeight : ℚ) : List (List Char) :=
  (lines.foldl (renderStep left globalSlot rowHeight) ([], none)).1

/-! ## The IEEE special-value path of the renderer's slot arithmetic

`lineTokensStep` above models the word loop's arithmetic over ℚ, which is
exact for every `slot ≠ 0` but collapses the division-by-zero path: in
JavaScript `offset / 0` is `±Infinity` (or `NaN` for `0 / 0`), `NaN` defeats
the `spaceCount < 1` guard, and `' '.repeat(NaN)` emits no spaces — and
`slot = 0` is reachable (a significant line whose median word width is `0`
sets `globalSlot = 0`).  The definitions below model the same loop over a
JavaScript-number type with `NaN` and the infinities, together with the
`RangeError` that `' '.repeat` throws on an infinite or negative count;
`lineTokensJS_eq` and `renderLineTextJS_eq` prove that this faithful model
agrees with the ℚ path whenever `slot ≠ 0`. -/

/-- A JavaScript number as it flows through the renderer's word loop: a
finite value (ℚ), an infinity, or `NaN`.  (`-0` cannot arise here: every
value is a difference, floor or ceiling of finite inputs.) -/
inductive JSNum where
  | fin : ℚ → JSNum
  | posInf : JSNum
  | negInf : JSNum
  | nan : JSNum
deriving DecidableEq, Repr

/-- IEEE division of two finite numbers: `x / 0` is `NaN` when `x = 0` and
`±Infinity` otherwise (the divisor is `+0` here), else the exact quotient. -/
def jsDivFin (x y : ℚ) : JSNum :=
  if y = 0 then
    if x = 0 then .nan else if 0 < x then .posInf else .negInf
  else .fin (x / y)

/-- `Math.floor`: the identity on `NaN` and the infinities. -/
def jsFloorN : JSNum → JSNum
  | .fin q => .fin (⌊q⌋ : ℚ)
  | x => x

/-- `Math.ceil`: the identity on `NaN` and the infinities. -/
def jsCeilN : JSNum → JSNum
  | .fin q => .fin (⌈q⌉ : ℚ)
  | x => x

/-- IEEE subtraction: `NaN` absorbs, `∞ - ∞` is `NaN`, an infinity beats a
finite value. -/
def jsSubN : JSNum → JSNum → JSNum
  | .nan, _ => .nan
  | _, .nan => .nan
  | .posInf, .posInf => .nan
  | .posInf, _ => .posInf
  | .negInf, .negInf => .nan
  | .negInf, _ => .negInf
  | .fin _, .posInf => .negInf
  | .fin _, .negInf => .posInf
  | .fin a, .fin b => .fin (a - b)

/-- IEEE addition: `NaN` absorbs, `∞ + (-∞)` is `NaN`, an infinity beats a
finite value. -/
def jsAddN : JSNum → JSNum → JSNum
  | .nan, _ => .nan
  | _, .nan => .nan
  | .posInf, .negInf => .nan
  | .negInf, .posInf => .nan
  | .posInf, _ => .posInf
  | _, .posInf => .posInf
  | .negInf, _ => .negInf
  | _, .negInf => .negInf
  | .fin a, .fin b => .fin (a + b)

/-- The comparison `a < b` with a finite right operand: false on `NaN`
(comparisons with `NaN` are false) and on `+Infinity`, true on `-Infinity`. -/
def jsLtN (a : JSNum) (b : ℚ) : Bool :=
  match a with
  | .nan => false
  | .posInf => false
  | .negInf => true
  | .fin q => decide (q < b)

/-- Truncation toward zero, as `ToIntegerOrInfinity` applies to a finite
argument. -/
def jsTrunc (q : ℚ) : ℤ :=
  if 0 ≤ q then ⌊q⌋ else -⌊-q⌋

/-- `' '.repeat(count)`: `NaN` converts to `0` (the empty string); an
infinite or negative count throws a `RangeError`; a finite count emits its
truncation in spaces. -/
def jsRepeatSpaces : JSNum → Except (List Char) (List Char)
  | .nan => .ok []
  | .posInf => .error ("RangeError").toList
  | .negInf => .error ("RangeError").toList
  | .fin q =>
    if jsTrunc q < 0 then .error ("RangeError").toList
    else .ok (List.replicate (jsTrunc q).toNat ' ')

/-- The renderer's word loop over JavaScript numbers — the same steps as
`lineTokensStep`, with `jsDivFin`/`jsFloorN`/`jsCeilN`/`jsSubN`/`jsAddN` in
place of the exact ℚ operations and the `NaN`-defeating `<` in the guard. -/
def lineTokensStepJS (left slot : ℚ) (acc : List (JSNum × List Char) × JSNum)
    (w : Word) : List (JSNum × List Char) × JSNum :=
  let toks := acc.1
  let lastPrintedSlotIndex := acc.2
  let offset := w.x0 - left
  let slotIndex := jsFloorN (jsDivFin offset slot)
  let spaceCount0 := jsSubN slotIndex lastPrintedSlotIndex
  let spaceCount := if jsLtN spaceCount0 1 then JSNum.fin 1 else spaceCount0
  let wordSlotSpan := jsCeilN (jsDivFin w.wordWidth slot)
  (toks ++ [(spaceCount, replaceNewlines w.word)], jsAddN slotIndex wordSlotSpan)

/-- The per-line token stream over JavaScript numbers, starting from
`lastPrintedSlotIndex = 0`. -/
def lineTokensJS (left slot : ℚ) (ws : List Word) : List (JSNum × List Char) :=
  (ws.foldl (lineTokensStepJS left slot) ([], JSNum.fin 0)).1

/-- Concatenate a JavaScript-number token stream, propagating the
`RangeError` that `' '.repeat` may throw. -/
def lineTextJSAux : List Char → List (JSNum × List Char) →
    Except (List Char) (List Char)
  | acc, [] => .ok acc
  | acc, t :: ts =>
    match jsRepeatSpaces t.1 with
    | .error e => .error e
    | .ok sp => lineTextJSAux (acc ++ sp ++ t.2) ts

/-- The line's raw text over JavaScript numbers. -/
def lineTextJS (toks : List (JSNum × List Char)) : Except (List Char) (List Char) :=
  lineTextJSAux [] toks

/-- Render one line over JavaScript numbers: sort by `x0`, emit the token
stream, trim trailing whitespace — or propagate the `RangeError`. -/
def renderLineTextJS (left slot : ℚ) (line : Line) :
    Except (List Char) (List Char) :=
  match lineTextJS (lineTokensJS left slot
      (List.insertionSort (fun a b : Word => a.x0 ≤ b.x0) line.words)) with
  | .error e => .error e
  | .ok text => .ok (jsTrimEnd text)

/-! ## PageAssembler -/

/-- The separator joined between consecutive page outputs. -/
def pageSeparator : List Char := ("\n---\n").toList

/-- One page of the pipeline: extract, cluster, compute slots, render, and
join the rendered lines with newlines.  The source passes the raw `left` /
`right` / `rowHeight` numbers through; they are non-finite exactly when the
page yields zero words, in which case no line exists and the values are never
consulted, so bridging with `getD 0` is observationally equivalent. -/
def processPage (document : IDocument) (page : Page) : List Char :=
  let scan := processTokens document page
  let lines := makeLinesWithIntersection scan.words
  let slots := computeSlots lines (scan.left.getD 0) (scan.right.getD 0)
  List.intercalate ['\n']
    (renderLinesWithSlots lines (scan.left.getD 0) slots.1 slots.2
      (scan.rowHeight.getD 0))

/-- The fixed result for a document with a missing or empty page list. -/
def noPagesMessage : List Char := ("No pages found in the document.").toList

/-- The page assembler: the fixed no-pages message when the page list is
missing or empty, otherwise the per-page outputs joined with `\n---\n`. -/
def processJSON (document : IDocument) : List Char :=
  match document.pages with
  | none => noPagesMessage
  | some [] => noPagesMessage
  | some (p :: ps) =>
    List.intercalate pageSeparator ((p :: ps).map (processPage document))

/-! ## Concrete example inputs used by counterexamples and witnesses -/

/-- A token record: one text-anchor segment `[s, e)` and a rectangular
bounding polygon with corners `(x0n, y0n)` (vertex 0) and `(x1n, y1n)`
(vertex 2), in normalized coordinates. -/
def mkToken (s e : ℕ) (x0n x1n y0n y1n : ℚ) : PageLine :=
  ⟨some ⟨some ⟨some [⟨some s, some e⟩]⟩,
    some ⟨some [⟨x0n, y0n⟩, ⟨x1n, y0n⟩, ⟨x1n, y1n⟩, ⟨x0n, y1n⟩]⟩⟩⟩

/-- A 100 × 100 page with no tokens. -/
def examplePageEmpty : Page := ⟨some ⟨some 100, some 100⟩, some []⟩

/-- A document with two token-less pages. -/
def exampleDocTwoEmptyPages : IDocument := ⟨[], some [examplePageEmpty, examplePageEmpty]⟩

/-- A 100 × 100 page holding a single zero-height token (text `"hi"`,
`x` from `0` to `50`, `y` pinned at `0`). -/
def examplePageZeroHeight : Page :=
  ⟨some ⟨some 100, some 100⟩, some [mkToken 0 2 0 (1 / 2) 0 0]⟩

/-- The document wrapping `examplePageZeroHeight` with text `"hi"`. -/
def exampleDocZeroHeight : IDocument := ⟨("hi").toList, some [examplePageZeroHeight]⟩

/-- A 100 × 100 page whose three tokens land on one visual row and produce
word widths `100`, `-10` and `0` (the second token's vertex 2 lies left of its
vertex 0). -/
def examplePageMixedWidths : Page :=
  ⟨some ⟨some 100, some 100⟩,
   some [mkToken 0 1 0 1 0 (1 / 10),
         mkToken 1 2 (1 / 2) (2 / 5) 0 (1 / 10),
         mkToken 2 3 (3 / 5) (3 / 5) 0 (1 / 10)]⟩

/-- The document wrapping `examplePageMixedWidths` with text `"abc"`. -/
def exampleDocMixedWidths : IDocument := ⟨("abc").toList, some [examplePageMixedWidths]⟩

/-- A 100 × 100 page with one ordinary token: text `"a"`, `x` from `0` to
`50`, `y` from `0` to `10`. -/
def examplePageOneWord : Page :=
  ⟨some ⟨some 100, some 100⟩, some [mkToken 0 1 0 (1 / 2) 0 (1 / 10)]⟩

/-- The document wrapping `examplePageOneWord` with text `"a"`. -/
def exampleDocOneWord : IDocument := ⟨("a").toList, some [examplePageOneWord]⟩

/-! ## C9: empty document handling -/

/-- C9: for every document whose page list is missing or empty, `processJSON`
returns the fixed no-pages message (the literal
`"No pages found in the document."`), which is not the empty string; no
exception is involved (the function is total). -/
theorem c9_no_pages_fixed_message (document : IDocument)
    (h : document.pages = none ∨ document.pages = some []) :
    processJSON document = noPagesMessage ∧ processJSON document ≠ [] := by
  have hne : noPagesMessage ≠ [] := by decide
  rcases h with h | h <;> rw [processJSON, h] <;> exact ⟨rfl, hne⟩

/-- Witness for C9 at the concrete document with `pages = none`. -/
theorem c9_no_pages_fixed_message_witness :
    ((⟨[], none⟩ : IDocument).pages = none ∨
        (⟨[], none⟩ : IDocument).pages = some []) ∧
      (processJSON ⟨[], none⟩ = noPagesMessage ∧ processJSON ⟨[], none⟩ ≠ []) :=
  ⟨Or.inl rfl, c9_no_pages_fixed_message ⟨[], none⟩ (Or.inl rfl)⟩

/-! ## C2: zero-word pages -/

/-- C2 counterexample: a page with zero tokens contributes the empty string,
not an explicit placeholder line; with two such pages the whole output is
just the page separator. -/
theorem c2_counterexample_empty_page_renders_empty :
    (processTokens exampleDocTwoEmptyPages examplePageEmpty).words = [] ∧
      processPage exampleDocTwoEmptyPages examplePageEmpty = [] ∧
      processJSON exampleDocTwoEmptyPages = ("\n---\n").toList := by
  refine ⟨rfl, rfl, rfl⟩

/-- C2 (amended): a page yielding zero usable words contributes the empty
string (not a placeholder), and every page's contribution — including the
empty one — participates in the `\n---\n` join of a non-empty page list. -/
theorem c2_empty_page_contribution (document : IDocument) (pages : List Page)
    (page : Page) (h1 : document.pages = some pages) (h2 : pages ≠ [])
    (h3 : (processTokens document page).words = []) :
    processJSON document =
        List.intercalate pageSeparator (pages.map (processPage document)) ∧
      processPage document page = [] := by
  constructor
  · cases pages with
    | nil => exact absurd rfl h2
    | cons p ps => rw [processJSON, h1]
  · rw [processPage, h3]
    rfl

/-- Witness for C2 at the two-empty-page document. -/
theorem c2_empty_page_contribution_witness :
    exampleDocTwoEmptyPages.pages = some [examplePageEmpty, examplePageEmpty] ∧
      [examplePageEmpty, examplePageEmpty] ≠ ([] : List Page) ∧
      (processTokens exampleDocTwoEmptyPages examplePageEmpty).words = [] ∧
      (processJSON exampleDocTwoEmptyPages =
          List.intercalate pageSeparator
            ([examplePageEmpty, examplePageEmpty].map
              (processPage exampleDocTwoEmptyPages)) ∧
        processPage exampleDocTwoEmptyPages examplePageEmpty = []) :=
  ⟨rfl, by decide, rfl,
    c2_empty_page_contribution exampleDocTwoEmptyPages
      [examplePageEmpty, examplePageEmpty] examplePageEmpty rfl (by decide) rfl⟩

/-! ## C6: the renderer's space counts -/

/-- Every token the renderer's word loop emits keeps its space count at least
one, whatever the accumulated stream and cursor are. -/
lemma lineTokens_fold_count_ge_one (left slot : ℚ) :
    ∀ (ws : List Word) (toks : List (ℤ × List Char)) (idx : ℤ),
      (∀ p ∈ toks, 1 ≤ p.1) →
      ∀ p ∈ (ws.foldl (lineTokensStep left slot) (toks, idx)).1, 1 ≤ p.1 := by
  intro ws
  induction ws with
  | nil => intro toks idx h p hp; exact h p hp
  | cons w ws ih =>
    intro toks idx h
    rw [List.foldl_cons]
    simp only [lineTokensStep]
    refine ih _ _ ?_
    intro p hp
    rcases List.mem_append.1 hp with hp | hp
    · exact h p hp
    · rcases List.mem_singleton.1 hp with rfl
      simp only
      split <;> omega

/-! Equivalence of the ℚ renderer path and the IEEE path for `slot ≠ 0`. -/

lemma jsDivFin_of_ne (x y : ℚ) (h : y ≠ 0) : jsDivFin x y = .fin (x / y) := by
  rw [jsDivFin, if_neg h]

lemma jsFloorN_fin (q : ℚ) : jsFloorN (.fin q) = .fin (⌊q⌋ : ℚ) := rfl

lemma jsCeilN_fin (q : ℚ) : jsCeilN (.fin q) = .fin (⌈q⌉ : ℚ) := rfl

lemma jsSubN_fin (a b : ℚ) : jsSubN (.fin a) (.fin b) = .fin (a - b) := rfl

lemma jsAddN_fin (a b : ℚ) : jsAddN (.fin a) (.fin b) = .fin (a + b) := rfl

lemma jsLtN_fin (q b : ℚ) : jsLtN (.fin q) b = decide (q < b) := rfl

/-- The `spaceCount` guard over a finite (integer) count agrees with the ℤ
guard of the exact path. -/
lemma fin_ite_cast (c : ℤ) :
    (if jsLtN (.fin ((c : ℤ) : ℚ)) 1 then JSNum.fin 1 else .fin ((c : ℤ) : ℚ)) =
      .fin (((if c < 1 then 1 else c : ℤ) : ℚ)) := by
  rw [jsLtN_fin]
  by_cases hc : c < 1
  · have hc' : ((c : ℤ) : ℚ) < 1 := by exact_mod_cast hc
    simp [hc, hc']
  · have hc' : ¬((c : ℤ) : ℚ) < 1 := by exact_mod_cast hc
    simp [hc, hc']

/-- For `slot ≠ 0` one IEEE word-loop step is the exact ℚ step under the
finite embedding. -/
lemma lineTokensStepJS_eq_map (left slot : ℚ) (h : slot ≠ 0)
    (toks : List (ℤ × List Char)) (idx : ℤ) (w : Word) :
    lineTokensStepJS left slot
        (toks.map (fun t => (JSNum.fin (t.1 : ℚ), t.2)), JSNum.fin (idx : ℚ)) w =
      ((lineTokensStep left slot (toks, idx) w).1.map
          (fun t => (JSNum.fin (t.1 : ℚ), t.2)),
        JSNum.fin (((lineTokensStep left slot (toks, idx) w).2 : ℤ) : ℚ)) := by
  simp only [lineTokensStepJS, lineTokensStep, jsDivFin_of_ne _ _ h,
    jsFloorN_fin, jsSubN_fin, jsCeilN_fin, jsAddN_fin]
  rw [← Int.cast_sub, ← Int.cast_add, fin_ite_cast]
  simp [List.map_append]

/-- For `slot ≠ 0` the IEEE word loop stays finite and produces exactly the
exact path's token stream. -/
lemma lineTokensJS_fold_eq (left slot : ℚ) (h : slot ≠ 0) :
    ∀ (ws : List Word) (toks : List (ℤ × List Char)) (idx : ℤ),
      (ws.foldl (lineTokensStepJS left slot)
          (toks.map (fun t => (JSNum.fin (t.1 : ℚ), t.2)),
            JSNum.fin (idx : ℚ))).1 =
        ((ws.foldl (lineTokensStep left slot) (toks, idx)).1).map
          (fun t => (JSNum.fin (t.1 : ℚ), t.2)) := by
  intro ws
  induction ws with
  | nil => intro toks idx; rfl
  | cons w ws ih =>
    intro toks idx
    rw [List.foldl_cons, List.foldl_cons, lineTokensStepJS_eq_map left slot h]
    exact ih _ _

/-- For `slot ≠ 0` the IEEE token stream is the exact one. -/
lemma lineTokensJS_eq (left slot : ℚ) (h : slot ≠ 0) (ws : List Word) :
    lineTokensJS left slot ws =
      (lineTokens left slot ws).map (fun t => (JSNum.fin (t.1 : ℚ), t.2)) := by
  have hfold := lineTokensJS_fold_eq left slot h ws [] 0
  simpa [lineTokensJS, lineTokens] using hfold

/-- `' '.repeat` of a finite non-negative integer count emits that many
spaces without throwing. -/
lemma jsRepeatSpaces_intCast (n : ℤ) (h : 0 ≤ n) :
    jsRepeatSpaces (.fin ((n : ℤ) : ℚ)) = .ok (List.replicate n.toNat ' ') := by
  have h0 : (0 : ℚ) ≤ ((n : ℤ) : ℚ) := by exact_mod_cast h
  have htr : jsTrunc ((n : ℤ) : ℚ) = n := by
    rw [jsTrunc, if_pos h0, Int.floor_intCast]
  show (if jsTrunc ((n : ℤ) : ℚ) < 0 then Except.error ("RangeError").toList
    else Except.ok (List.replicate (jsTrunc ((n : ℤ) : ℚ)).toNat ' ')) = _
  rw [htr, if_neg (by omega)]

/-- Concatenating an all-non-negative finite token stream never throws and
agrees with the exact concatenation. -/
lemma lineTextJSAux_eq :
    ∀ (toks : List (ℤ × List Char)), (∀ p ∈ toks, 0 ≤ p.1) →
      ∀ acc : List Char,
        lineTextJSAux acc (toks.map (fun t => (JSNum.fin (t.1 : ℚ), t.2))) =
          .ok (toks.foldl
            (fun text t => text ++ List.replicate t.1.toNat ' ' ++ t.2) acc) := by
  intro toks
  induction toks with
  | nil => intro _ acc; rfl
  | cons t ts ih =>
    intro h acc
    rw [List.map_cons]
    show (match jsRepeatSpaces (JSNum.fin ((t.1 : ℤ) : ℚ)) with
      | Except.error e => Except.error e
      | Except.ok sp => lineTextJSAux (acc ++ sp ++ t.2)
          (ts.map (fun s : ℤ × List Char => (JSNum.fin (s.1 : ℚ), s.2)))) = _
    rw [jsRepeatSpaces_intCast t.1 (h t (List.mem_cons_self _ _))]
    exact ih (fun p hp => h p (List.mem_cons_of_mem _ hp)) _

/-- For `slot ≠ 0` the IEEE renderer completes without a `RangeError` and
renders exactly the exact path's line text. -/
lemma renderLineTextJS_eq (left slot : ℚ) (h : slot ≠ 0) (line : Line) :
    renderLineTextJS left slot line = .ok (renderLineText left slot line) := by
  have hcounts : ∀ p ∈ lineTokens left slot
      (List.insertionSort (fun a b : Word => a.x0 ≤ b.x0) line.words),
      0 ≤ p.1 := fun p hp => le_trans (by norm_num)
    (lineTokens_fold_count_ge_one left slot _ [] 0 (by simp) p hp)
  show (match lineTextJS (lineTokensJS left slot
      (List.insertionSort (fun a b : Word => a.x0 ≤ b.x0) line.words)) with
    | Except.error e => Except.error e
    | Except.ok text => Except.ok (jsTrimEnd text)) = _
  rw [lineTokensJS_eq left slot h, lineTextJS,
    lineTextJSAux_eq _ hcounts []]
  rfl

/-- C6 (amended): whenever the slot is nonzero, the IEEE word loop agrees
with the exact ℚ loop, and every emitted space count — in particular the one
between any two consecutive words — is at least one; at the reachable
`slot = 0` the `NaN` path bypasses the `max(1, ·)` guard and emits zero
spaces. -/
theorem c6_space_count_with_nonzero_slot (left slot : ℚ) (ws : List Word)
    (h : slot ≠ 0) :
    lineTokensJS left slot ws =
        (lineTokens left slot ws).map (fun t => (JSNum.fin (t.1 : ℚ), t.2)) ∧
      ∀ p ∈ lineTokens left slot ws, 1 ≤ p.1 :=
  ⟨lineTokensJS_eq left slot h ws,
    fun p hp => lineTokens_fold_count_ge_one left slot ws [] 0 (by simp) p hp⟩

/-- Witness for C6 at `slot = 10` on a one-word line. -/
theorem c6_space_count_with_nonzero_slot_witness :
    ((10 : ℚ) ≠ 0) ∧
      (lineTokensJS 0 10 [⟨['a'], 0, 0, 10, 50⟩] =
          (lineTokens 0 10 [⟨['a'], 0, 0, 10, 50⟩]).map
            (fun t => (JSNum.fin (t.1 : ℚ), t.2)) ∧
        ∀ p ∈ lineTokens 0 10 [⟨['a'], 0, 0, 10, 50⟩], 1 ≤ p.1) :=
  ⟨by norm_num,
    c6_space_count_with_nonzero_slot 0 10 [⟨['a'], 0, 0, 10, 50⟩] (by norm_num)⟩

/-! ## C7: vertical-gap blank lines -/

/-- The renderer's line loop from the second line on, with the previous
line's bottom explicit: one blank line is emitted before a line's text
exactly when `line.top - lastLineBottom > 1.5 * rowHeight`.  Stated as a
standalone recursion to compare against the fold in `renderLinesWithSlots`. -/
def renderSpecAux (left slot rowHeight : ℚ) (lastLineBottom : ℚ) :
    List Line → List (List Char)
  | [] => []
  | line :: rest =>
    (if line.top - lastLineBottom > 3 / 2 * rowHeight then [[]] else []) ++
      renderLineText left slot line ::
        renderSpecAux left slot rowHeight line.bottom rest

/-- The renderer with the first line explicit: the first line of a page is
never preceded by a blank line; afterwards `renderSpecAux` applies. -/
def renderSpec (left slot rowHeight : ℚ) : List Line → List (List Char)
  | [] => []
  | line :: rest =>
    renderLineText left slot line ::
      renderSpecAux left slot rowHeight line.bottom rest

/-- Unrolling the renderer's fold from a state with a known previous bottom
yields `renderSpecAux`. -/
lemma renderFold_some (left slot rh : ℚ) :
    ∀ (lines : List Line) (acc : List (List Char)) (b : ℚ),
      (lines.foldl (renderStep left slot rh) (acc, some b)).1 =
        acc ++ renderSpecAux left slot rh b lines := by
  intro lines
  induction lines with
  | nil => intro acc b; simp [renderSpecAux]
  | cons line rest ih =>
    intro acc b
    rw [List.foldl_cons]
    by_cases hgap : line.top - b > 3 / 2 * rh
    · simp only [renderStep, if_pos hgap]
      rw [ih, renderSpecAux]
      simp [hgap]
    · simp only [renderStep, if_neg hgap]
      rw [ih, renderSpecAux]
      simp [hgap]

/-- C7: the renderer agrees with the explicit per-line form `renderSpec`:
no blank line is ever emitted before a page's first line, and between two
consecutive lines exactly one blank line is emitted if and only if the
vertical gap to the previous line's bottom exceeds `1.5 * rowHeight`; in
particular a gap equal to `3 * rowHeight` with `rowHeight > 0` produces
exactly one blank line. -/
theorem c7_gap_blank_characterization (lines : List Line) (left slot : ℚ)
    (lineSlots : List (ℚ × ℚ × ℚ)) (rowHeight : ℚ) :
    renderLinesWithSlots lines left slot lineSlots rowHeight =
        renderSpec left slot rowHeight lines
    ∧ (∀ (line : Line) (rest : List Line),
        renderSpec left slot rowHeight (line :: rest) =
          renderLineText left slot line ::
            renderSpecAux left slot rowHeight line.bottom rest)
    ∧ (∀ (b : ℚ) (line : Line) (rest : List Line),
        renderSpecAux left slot rowHeight b (line :: rest) =
          (if line.top - b > 3 / 2 * rowHeight then [[]] else []) ++
            renderLineText left slot line ::
              renderSpecAux left slot rowHeight line.bottom rest)
    ∧ (∀ (rh b : ℚ) (line : Line) (rest : List Line),
        0 < rh → line.top - b = 3 * rh →
        renderSpecAux left slot rh b (line :: rest) =
          [] :: renderLineText left slot line ::
            renderSpecAux left slot rh line.bottom rest) := by
  refine ⟨?_, fun line rest => rfl, fun b line rest => rfl, ?_⟩
  · cases lines with
    | nil => rfl
    | cons line rest =>
      show (List.foldl (renderStep left slot rowHeight)
          (renderStep left slot rowHeight ([], none) line) rest).1 = _
      have hstep : renderStep left slot rowHeight ([], none) line =
          ([renderLineText left slot line], some line.bottom) := rfl
      rw [hstep, renderFold_some]
      rfl
  · intro rh b line rest h1 h2
    have hgap : line.top - b > 3 / 2 * rh := by rw [h2]; linarith
    rw [renderSpecAux, if_pos hgap]
    rfl

/-- Witness for C7: an empty page renders equal under both forms, and the
`3 × rowHeight` gap scenario emits exactly one blank line. -/
theorem c7_gap_blank_characterization_witness :
    (renderLinesWithSlots [] 0 1 [] 1 = renderSpec 0 1 1 []) ∧
      (0 : ℚ) < 2 ∧ ((⟨[], 6, 7⟩ : Line).top - 0 = 3 * 2) ∧
      renderSpecAux 0 1 2 0 [⟨[], 6, 7⟩] =
        [] :: renderLineText 0 1 ⟨[], 6, 7⟩ :: renderSpecAux 0 1 2 7 [] :=
  ⟨(c7_gap_blank_characterization [] 0 1 [] 1).1, by norm_num, by norm_num,
    (c7_gap_blank_characterization [] 0 1 [] 1).2.2.2 2 0 ⟨[], 6, 7⟩ []
      (by norm_num) (by norm_num)⟩

/-! ## C10: rendered lines start with a space -/

/-- The renderer's word loop only appends to the token stream. -/
lemma lineTokens_fold_length (left slot : ℚ) :
    ∀ (ws : List Word) (toks : List (ℤ × List Char)) (idx : ℤ),
      ((ws.foldl (lineTokensStep left slot) (toks, idx)).1).length =
        toks.length + ws.length := by
  intro ws
  induction ws with
  | nil => intro toks idx; rfl
  | cons w ws ih =>
    intro toks idx
    rw [List.foldl_cons]
    simp only [lineTokensStep]
    rw [ih]
    simp
    omega

/-- Concatenating the token stream is flattening its space-run/text blocks. -/
lemma lineText_eq_flatten (toks : List (ℤ × List Char)) :
    lineText toks =
      (toks.map fun t => List.replicate t.1.toNat ' ' ++ t.2).flatten := by
  suffices h : ∀ (ts : List (ℤ × List Char)) (acc : List Char),
      ts.foldl (fun text t => text ++ List.replicate t.1.toNat ' ' ++ t.2) acc =
        acc ++ (ts.map fun t => List.replicate t.1.toNat ' ' ++ t.2).flatten by
    rw [lineText, h toks []]
    rfl
  intro ts
  induction ts with
  | nil => intro acc; simp
  | cons t ts ih =>
    intro acc
    rw [List.foldl_cons, ih, List.map_cons, List.flatten_cons]
    simp [List.append_assoc]

/-- `dropWhile` returns a suffix of its input. -/
lemma dropWhile_is_suffix {α : Type} (p : α → Bool) :
    ∀ l : List α, ∃ t, t ++ l.dropWhile p = l := by
  intro l
  induction l with
  | nil => exact ⟨[], rfl⟩
  | cons a l ih =>
    by_cases hp : p a
    · obtain ⟨t, ht⟩ := ih
      exact ⟨a :: t, by simp [List.dropWhile_cons, hp, ht]⟩
    · exact ⟨[], by simp [List.dropWhile_cons, hp]⟩

/-- Trimming trailing whitespace leaves a prefix of the original text. -/
lemma jsTrimEnd_is_prefix (l : List Char) : ∃ s, l = jsTrimEnd l ++ s := by
  obtain ⟨t, ht⟩ := dropWhile_is_suffix jsIsWhitespace l.reverse
  refine ⟨t.reverse, ?_⟩
  have h := congrArg List.reverse ht
  rw [List.reverse_append, List.reverse_reverse] at h
  rw [jsTrimEnd]
  exact h.symm

/-- Over the exact ℚ path, a rendered line with at least one word is either
the empty string or begins with a literal space — the first word is preceded
by at least one space and only trailing whitespace is trimmed. -/
lemma renderLineText_leading_space (left slot : ℚ) (line : Line)
    (h : line.words ≠ []) :
    renderLineText left slot line = [] ∨
      ∃ t, renderLineText left slot line = ' ' :: t := by
  have hws : List.insertionSort (fun a b => a.x0 ≤ b.x0) line.words ≠ [] := by
    intro hnil
    have hperm := List.perm_insertionSort (fun a b => a.x0 ≤ b.x0) line.words
    rw [hnil] at hperm
    exact h (hperm.symm.eq_nil)
  have hlen : (lineTokens left slot
      (List.insertionSort (fun a b => a.x0 ≤ b.x0) line.words)).length =
      (List.insertionSort (fun a b => a.x0 ≤ b.x0) line.words).length := by
    rw [lineTokens, lineTokens_fold_length]
    simp
  have htne : lineTokens left slot
      (List.insertionSort (fun a b => a.x0 ≤ b.x0) line.words) ≠ [] := by
    intro hnil
    rw [hnil] at hlen
    exact hws (List.length_eq_zero.1 hlen.symm)
  obtain ⟨tk, rest, htk⟩ := List.exists_cons_of_ne_nil htne
  have hc : 1 ≤ tk.1 := by
    refine lineTokens_fold_count_ge_one left slot
      (List.insertionSort (fun a b => a.x0 ≤ b.x0) line.words) [] 0 (by simp) tk ?_
    rw [← lineTokens, htk]
    exact List.mem_cons_self _ _
  obtain ⟨k, hk⟩ : ∃ k, tk.1.toNat = k + 1 := ⟨tk.1.toNat - 1, by omega⟩
  have hraw : ∃ u, lineText (lineTokens left slot
      (List.insertionSort (fun a b => a.x0 ≤ b.x0) line.words)) = ' ' :: u := by
    rw [htk, lineText_eq_flatten, List.map_cons, List.flatten_cons, hk,
      List.replicate_succ]
    exact ⟨_, rfl⟩
  obtain ⟨u, hu⟩ := hraw
  have hrl : renderLineText left slot line =
      jsTrimEnd (lineText (lineTokens left slot
        (List.insertionSort (fun a b => a.x0 ≤ b.x0) line.words))) := rfl
  obtain ⟨s, hs⟩ := jsTrimEnd_is_prefix (lineText (lineTokens left slot
    (List.insertionSort (fun a b => a.x0 ≤ b.x0) line.words)))
  cases hte : jsTrimEnd (lineText (lineTokens left slot
      (List.insertionSort (fun a b => a.x0 ≤ b.x0) line.words))) with
  | nil => exact Or.inl (hrl.trans hte)
  | cons c cs =>
    right
    rw [hte, hu] at hs
    rw [List.cons_append] at hs
    have hc' : c = ' ' := (List.cons.injEq _ _ _ _ ▸ hs).1.symm
    exact ⟨cs, by rw [hrl, hte, hc']⟩


/-! ## Clusterer bookkeeping: the words of the produced lines -/

/-- Inserting a word adds exactly that word to the lines' word multiset. -/
lemma insertWord_words_perm (w : Word) :
    ∀ lines : List Line,
      ((insertWord w lines).flatMap Line.words).Perm
        (w :: lines.flatMap Line.words) := by
  intro lines
  induction lines with
  | nil => simp [insertWord]
  | cons line rest ih =>
    simp only [insertWord]
    split
    · rw [List.flatMap_cons, List.flatMap_cons]
      exact (List.Perm.append_left line.words ih).trans List.perm_middle
    · split
      · rw [List.flatMap_cons, List.flatMap_cons]
        show ((line.words ++ [w]) ++ rest.flatMap Line.words).Perm
          (w :: (line.words ++ rest.flatMap Line.words))
        rw [List.append_assoc]
        exact List.perm_middle
      · rw [List.flatMap_cons, List.flatMap_cons]
        exact (List.Perm.append_left line.words ih).trans List.perm_middle

/-- Folding the insertion over a word list appends exactly those words to the
lines' word multiset. -/
lemma foldl_insertWord_perm :
    ∀ (ws : List Word) (acc : List Line),
      ((ws.foldl (fun lines w => insertWord w lines) acc).flatMap
          Line.words).Perm
        (acc.flatMap Line.words ++ ws) := by
  intro ws
  induction ws with
  | nil => intro acc; simp
  | cons w ws ih =>
    intro acc
    rw [List.foldl_cons]
    refine (ih (insertWord w acc)).trans ?_
    refine (List.Perm.append_right ws (insertWord_words_perm w acc)).trans ?_
    rw [List.cons_append]
    exact List.perm_middle.symm

/-- Sorting each line's words does not change the overall word multiset. -/
lemma flatten_map_sortWords_perm :
    ∀ lines : List Line,
      ((lines.map fun line =>
          List.insertionSort (fun a b : Word => a.x0 ≤ b.x0)
            line.words).flatten).Perm
        ((lines.map Line.words).flatten) := by
  intro lines
  induction lines with
  | nil => simp
  | cons l rest ih =>
    simp only [List.map_cons, List.flatten_cons]
    exact List.Perm.append (List.perm_insertionSort _ _) ih

/-- The clusterer neither drops nor duplicates text: the concatenation of the
produced lines' words is a permutation of the input word list. -/
lemma makeLines_words_perm (ws : List Word) :
    ((makeLinesWithIntersection ws).flatMap Line.words).Perm ws := by
  rw [makeLinesWithIntersection, List.flatMap_def, List.map_map]
  have p1 := flatten_map_sortWords_perm
    (List.insertionSort (fun a b : Line => a.top ≤ b.top)
      ((List.insertionSort (fun a b : Word => a.originalYTop ≤ b.originalYTop)
        ws).foldl (fun lines w => insertWord w lines) []))
  have p2 := List.Perm.flatten (List.Perm.map Line.words
    (List.perm_insertionSort (fun a b : Line => a.top ≤ b.top)
      ((List.insertionSort (fun a b : Word => a.originalYTop ≤ b.originalYTop)
        ws).foldl (fun lines w => insertWord w lines) [])))
  refine p1.trans (p2.trans ?_)
  rw [← List.flatMap_def]
  refine (foldl_insertWord_perm _ []).trans ?_
  simpa using List.perm_insertionSort
    (fun a b : Word => a.originalYTop ≤ b.originalYTop) ws

/-! ## C1: words of non-positive height -/

/-- C1 counterexample: a single word with `yBottom = yTop` (zero height) is
not skipped by the clusterer — it forms a line of its own. -/
theorem c1_counterexample_degenerate_forms_line :
    makeLinesWithIntersection [⟨['x'], 0, 5, 5, 3⟩] =
        [⟨[⟨['x'], 0, 5, 5, 3⟩], 5, 5⟩] ∧
      (makeLinesWithIntersection [⟨['x'], 0, 5, 5, 3⟩]).length = 1 := by
  exact ⟨rfl, rfl⟩

/-- C1 (amended): a word whose height is zero or negative never joins an
existing line, but it is not skipped: the scan appends a new line containing
only that word; and overall the clusterer neither duplicates nor drops any
word (the lines' words are a permutation of the input). -/
theorem c1_degenerate_word_new_line (w : Word) (lines : List Line)
    (ws : List Word) (h : w.originalYBottom ≤ w.originalYTop) :
    insertWord w lines = lines ++ [⟨[w], w.originalYTop, w.originalYBottom⟩] ∧
      ((makeLinesWithIntersection ws).flatMap Line.words).Perm ws := by
  constructor
  · have h' : w.originalYBottom - w.originalYTop ≤ 0 := sub_nonpos.2 h
    induction lines with
    | nil => rfl
    | cons line rest ih =>
      simp only [insertWord, if_pos h', ih]
      rfl
  · exact makeLines_words_perm ws

/-- Witness for C1 at a concrete zero-height word. -/
theorem c1_degenerate_word_new_line_witness :
    ((⟨['x'], 0, 5, 5, 3⟩ : Word).originalYBottom ≤
        (⟨['x'], 0, 5, 5, 3⟩ : Word).originalYTop) ∧
      (insertWord ⟨['x'], 0, 5, 5, 3⟩ [] =
          [⟨[⟨['x'], 0, 5, 5, 3⟩], 5, 5⟩] ∧
        ((makeLinesWithIntersection []).flatMap Line.words).Perm []) :=
  ⟨le_refl _, c1_degenerate_word_new_line ⟨['x'], 0, 5, 5, 3⟩ [] [] (le_refl _)⟩

/-! ## C8: ordering of the clusterer's output -/

/-- C8: the clusterer's lines are sorted by `top` ascending, and within every
line the words are sorted by `x0` ascending. -/
theorem c8_output_sorted (ws : List Word) :
    (makeLinesWithIntersection ws).Pairwise (fun a b => a.top ≤ b.top) ∧
      ∀ l ∈ makeLinesWithIntersection ws,
        l.words.Pairwise (fun a b => a.x0 ≤ b.x0) := by
  haveI : IsTotal Line fun a b => a.top ≤ b.top :=
    ⟨fun a b => le_total a.top b.top⟩
  haveI : IsTrans Line fun a b => a.top ≤ b.top :=
    ⟨fun a b c hab hbc => le_trans hab hbc⟩
  haveI : IsTotal Word fun a b => a.x0 ≤ b.x0 :=
    ⟨fun a b => le_total a.x0 b.x0⟩
  haveI : IsTrans Word fun a b => a.x0 ≤ b.x0 :=
    ⟨fun a b c hab hbc => le_trans hab hbc⟩
  constructor
  · rw [makeLinesWithIntersection, List.pairwise_map]
    exact List.sorted_insertionSort _ _
  · intro l hl
    rw [makeLinesWithIntersection] at hl
    obtain ⟨a, _, rfl⟩ := List.mem_map.1 hl
    exact List.sorted_insertionSort _ _

/-- Witness for C8 on a concrete one-word page. -/
theorem c8_output_sorted_witness :
    (makeLinesWithIntersection [⟨['x'], 0, 5, 9, 3⟩]).Pairwise
        (fun a b => a.top ≤ b.top) ∧
      (⟨[⟨['x'], 0, 5, 9, 3⟩], 5, 9⟩ : Line) ∈
        makeLinesWithIntersection [⟨['x'], 0, 5, 9, 3⟩] ∧
      (⟨[⟨['x'], 0, 5, 9, 3⟩], 5, 9⟩ : Line).words.Pairwise
        (fun a b => a.x0 ≤ b.x0) :=
  ⟨(c8_output_sorted [⟨['x'], 0, 5, 9, 3⟩]).1,
    by rw [show makeLinesWithIntersection [⟨['x'], 0, 5, 9, 3⟩] =
        [⟨[⟨['x'], 0, 5, 9, 3⟩], 5, 9⟩] from rfl]; exact List.mem_singleton_self _,
    (c8_output_sorted [⟨['x'], 0, 5, 9, 3⟩]).2 ⟨[⟨['x'], 0, 5, 9, 3⟩], 5, 9⟩
      (by rw [show makeLinesWithIntersection [⟨['x'], 0, 5, 9, 3⟩] =
        [⟨[⟨['x'], 0, 5, 9, 3⟩], 5, 9⟩] from rfl]; exact List.mem_singleton_self _)⟩

/-! ## C3: the rowHeight running minimum -/

/-- Order on `Option ℚ` with `none` as `+∞` (the representation used for the
extractor's `rowHeight`): `infLE a b` means `a ≤ b`. -/
def infLE : Option ℚ → Option ℚ → Prop
  | _, none => True
  | none, some _ => False
  | some a, some b => a ≤ b

lemma infLE_refl (o : Option ℚ) : infLE o o := by
  cases o <;> simp [infLE]

lemma infLE_trans {a b c : Option ℚ} (h1 : infLE a b) (h2 : infLE b c) :
    infLE a c := by
  cases a <;> cases b <;> cases c <;> simp_all [infLE]
  exact le_trans h1 h2

lemma minRowHeight_le_left (o : Option ℚ) (h : ℚ) :
    infLE (minRowHeight o h) o := by
  cases o with
  | none => simp [infLE, minRowHeight]
  | some r =>
    simp only [minRowHeight, infLE]
    split <;> [linarith [lt_of_lt_of_le (by assumption : h < r) (le_refl r)]; exact le_refl r]

lemma minRowHeight_le_right (o : Option ℚ) (h : ℚ) :
    infLE (minRowHeight o h) (some h) := by
  cases o with
  | none => simp [infLE, minRowHeight]
  | some r =>
    simp only [minRowHeight, infLE]
    split
    · exact le_refl h
    · linarith [not_lt.1 (by assumption : ¬r > h)]

lemma minRowHeight_cases (o : Option ℚ) (h : ℚ) :
    minRowHeight o h = o ∨ minRowHeight o h = some h := by
  cases o with
  | none => right; rfl
  | some r =>
    simp only [minRowHeight]
    split
    · right; rfl
    · left; rfl

/-- Each extractor iteration either skips the token entirely or pushes one
word and folds its `x0`, `x1 = x0 + wordWidth` and height into the running
extrema. -/
lemma processTokensStep_cases (document : IDocument) (page : Page)
    (st : TokenScan) (token : PageLine) :
    processTokensStep document page st token = st ∨
      ∃ w : Word, processTokensStep document page st token =
        { words := st.words ++ [w]
          left := minLeft st.left w.x0
          right := maxRight st.right (w.x0 + w.wordWidth)
          rowHeight :=
            minRowHeight st.rowHeight (w.originalYBottom - w.originalYTop) } := by
  cases hL : token.layout with
  | none => left; simp [processTokensStep, hL]
  | some layout =>
    by_cases hT : extractTextFromLayout document.text layout.textAnchor = []
    · left; simp [processTokensStep, hL, hT]
    · cases hB : layout.boundingPoly with
      | none => left; simp [processTokensStep, hL, hT, hB]
      | some bp =>
        cases hV : bp.normalizedVertices with
        | none => left; simp [processTokensStep, hL, hT, hB, hV]
        | some vertices =>
          cases hD : page.dimension with
          | none => left; simp [processTokensStep, hL, hT, hB, hV, hD]
          | some dim =>
            right
            refine ⟨⟨extractTextFromLayout document.text layout.textAnchor,
              (vertices.getD 0 ⟨0, 0⟩).x * dim.width.getD 0,
              (vertices.getD 0 ⟨0, 0⟩).y * dim.height.getD 0,
              (vertices.getD 2 ⟨0, 0⟩).y * dim.height.getD 0,
              (vertices.getD 2 ⟨0, 0⟩).x * dim.width.getD 0 -
                (vertices.getD 0 ⟨0, 0⟩).x * dim.width.getD 0⟩, ?_⟩
            simp only [processTokensStep, hL, hT, hB, hV, hD, if_neg hT]
            have harith : (vertices.getD 0 ⟨0, 0⟩).x * dim.width.getD 0 +
                ((vertices.getD 2 ⟨0, 0⟩).x * dim.width.getD 0 -
                  (vertices.getD 0 ⟨0, 0⟩).x * dim.width.getD 0) =
                (vertices.getD 2 ⟨0, 0⟩).x * dim.width.getD 0 := by ring
            rw [harith]
            simp

/-- The extractor's fold invariant for `rowHeight`: it only decreases, bounds
every produced word's height from below, words are only appended, and the
final value is either the start value or an encountered height. -/
lemma processTokens_fold_rowHeight (document : IDocument) (page : Page) :
    ∀ (toks : List PageLine) (st : TokenScan),
      (∀ w ∈ st.words,
        infLE st.rowHeight (some (w.originalYBottom - w.originalYTop))) →
      infLE (toks.foldl (processTokensStep document page) st).rowHeight
          st.rowHeight
      ∧ (∀ w ∈ st.words,
          w ∈ (toks.foldl (processTokensStep document page) st).words)
      ∧ (∀ w ∈ (toks.foldl (processTokensStep document page) st).words,
          infLE (toks.foldl (processTokensStep document page) st).rowHeight
            (some (w.originalYBottom - w.originalYTop)))
      ∧ ((toks.foldl (processTokensStep document page) st).rowHeight =
            st.rowHeight ∨
          ∃ w ∈ (toks.foldl (processTokensStep document page) st).words,
            (toks.foldl (processTokensStep document page) st).rowHeight =
              some (w.originalYBottom - w.originalYTop)) := by
  intro toks
  induction toks with
  | nil =>
    intro st h
    exact ⟨infLE_refl _, fun w hw => hw, h, Or.inl rfl⟩
  | cons tok toks ih =>
    intro st h
    simp only [List.foldl_cons]
    rcases processTokensStep_cases document page st tok with hstep | ⟨w', hstep⟩
    · rw [hstep]; exact ih st h
    · rw [hstep]
      have hinv : ∀ w ∈ st.words ++ [w'],
          infLE (minRowHeight st.rowHeight
              (w'.originalYBottom - w'.originalYTop))
            (some (w.originalYBottom - w.originalYTop)) := by
        intro w hw
        rcases List.mem_append.1 hw with hw | hw
        · exact infLE_trans (minRowHeight_le_left _ _) (h w hw)
        · rcases List.mem_singleton.1 hw with rfl
          exact minRowHeight_le_right _ _
      obtain ⟨h1, h2, h3, h4⟩ := ih
        { words := st.words ++ [w']
          left := minLeft st.left w'.x0
          right := maxRight st.right (w'.x0 + w'.wordWidth)
          rowHeight :=
            minRowHeight st.rowHeight (w'.originalYBottom - w'.originalYTop) }
        hinv
      refine ⟨infLE_trans h1 (minRowHeight_le_left _ _), ?_, h3, ?_⟩
      · intro w hw
        exact h2 w (List.mem_append_left _ hw)
      · rcases h4 with h4 | h4
        · rcases minRowHeight_cases st.rowHeight
            (w'.originalYBottom - w'.originalYTop) with hc | hc
          · left; rw [h4]; exact hc
          · right
            exact ⟨w', h2 w' (List.mem_append_right _ (List.mem_singleton_self _)),
              by rw [h4]; exact hc⟩
        · right; exact h4

/-- C3 counterexample: on a 100-pixel-high page whose only token has zero
height, the extractor's `rowHeight` is `0`, not the page height `100` — the
zero-height token does affect the running minimum, which is not restricted to
positive heights. -/
theorem c3_counterexample_zero_height_token :
    (processTokens exampleDocZeroHeight examplePageZeroHeight).rowHeight =
        some 0 ∧
      rowHeightSeed examplePageZeroHeight = some 100 ∧ (0 : ℚ) ≠ 100 := by
  refine ⟨?_, ?_, by norm_num⟩
  · norm_num [processTokens, processTokensStep, exampleDocZeroHeight,
      examplePageZeroHeight, mkToken, extractTextFromLayout, jsSlice,
      rowHeightSeed, minRowHeight, minLeft, maxRight]
    rw [if_neg (by decide : ¬(['h', 'i'] = ([] : List Char)))]
  · norm_num [rowHeightSeed, examplePageZeroHeight]

/-- C3 (amended): the extractor's `rowHeight` is the running minimum, seeded
at `page.dimension?.height || Infinity`, over the heights `y1 - y0` of all
usable tokens — including zero and negative heights: it never exceeds the
seed, it bounds every produced word's height from below, and it is attained
by the seed or by one of the produced words. -/
theorem c3_rowheight_min_over_all_heights (document : IDocument) (page : Page) :
    infLE (processTokens document page).rowHeight (rowHeightSeed page)
    ∧ (∀ w ∈ (processTokens document page).words,
        infLE (processTokens document page).rowHeight
          (some (w.originalYBottom - w.originalYTop)))
    ∧ ((processTokens document page).rowHeight = rowHeightSeed page ∨
        ∃ w ∈ (processTokens document page).words,
          (processTokens document page).rowHeight =
            some (w.originalYBottom - w.originalYTop)) := by
  obtain ⟨h1, _, h3, h4⟩ := processTokens_fold_rowHeight document page
    (page.lines.getD []) ⟨[], none, none, rowHeightSeed page⟩
    (by intro w hw; cases hw)
  exact ⟨h1, h3, h4⟩

/-- The extractor's output on the concrete one-word page. -/
lemma processTokens_one_word_example :
    processTokens exampleDocOneWord examplePageOneWord =
      ⟨[⟨['a'], 0, 0, 10, 50⟩], some 0, some 50, some 10⟩ := by
  norm_num [processTokens, processTokensStep, exampleDocOneWord,
    examplePageOneWord, mkToken, extractTextFromLayout, jsSlice,
    rowHeightSeed, minRowHeight, minLeft, maxRight]

/-- Witness for C3 on the concrete one-word page, with the word-height bound
instantiated at its single word. -/
theorem c3_rowheight_min_over_all_heights_witness :
    infLE (processTokens exampleDocOneWord examplePageOneWord).rowHeight
        (rowHeightSeed examplePageOneWord) ∧
      infLE (processTokens exampleDocOneWord examplePageOneWord).rowHeight
        (some ((10 : ℚ) - 0)) :=
  ⟨(c3_rowheight_min_over_all_heights exampleDocOneWord examplePageOneWord).1,
    (c3_rowheight_min_over_all_heights exampleDocOneWord
        examplePageOneWord).2.1 ⟨['a'], 0, 0, 10, 50⟩
      (by rw [processTokens_one_word_example]; exact List.mem_singleton_self _)⟩

/-! ## C4: the join rule of the clusterer -/

/-- The tall word `[0, 200]` used to seed a line. -/
def exampleWordA : Word := ⟨['a'], 0, 0, 200, 10⟩

/-- The word `[71, 271]` whose overlap with the line `[0, 200]` is `129` of
its height `200`, an exact ratio of `64.5%`. -/
def exampleWordB : Word := ⟨['b'], 0, 71, 271, 10⟩

/-- C4 counterexample: the source thresholds the rounded clamped integer
percentage, not the real ratio: word B's overlap ratio with line `[0, 200]`
is `64.5% < 65%`, yet `Math.round` lifts it to `65` and B joins the line —
the clusterer produces one line where the claim, read over exact ratios,
demands two. -/
theorem c4_counterexample_rounding_at_threshold :
    (min (200 : ℚ) 271 - max 0 71) / ((271 : ℚ) - 71) < 65 / 100 ∧
      overlapPercentage ⟨[exampleWordA], 0, 200⟩ exampleWordB = 65 ∧
      makeLinesWithIntersection [exampleWordA, exampleWordB] =
        [⟨[exampleWordA, exampleWordB], 0, 271⟩] := by
  refine ⟨by norm_num, ?_, ?_⟩
  · norm_num [overlapPercentage, exampleWordA, exampleWordB, round_eq]
  · norm_num [makeLinesWithIntersection, List.insertionSort, List.orderedInsert,
      insertWord, overlapPercentage, widenLine, exampleWordA, exampleWordB,
      round_eq]

/-- C4 (amended): for a word of positive height the insertion scan joins the
first line, in creation order, whose clamped rounded overlap percentage
`max(0, min(100, round(overlap / wordHeight * 100)))` reaches 65, widening
that line's bounds in place; if no line qualifies the word starts a new
trailing line containing only itself. -/
theorem c4_first_qualifying_line_join (w : Word) (lines : List Line)
    (h : 0 < w.originalYBottom - w.originalYTop) :
    (insertWord w lines =
      match lines.findIdx? (fun line => decide (65 ≤ overlapPercentage line w)) with
      | some i => lines.set i (widenLine (lines.getD i ⟨[], 0, 0⟩) w)
      | none => lines ++ [⟨[w], w.originalYTop, w.originalYBottom⟩])
    ∧ ∀ line : Line,
        overlapPercentage line w =
          max 0 (min 100 (round ((min line.bottom w.originalYBottom -
            max line.top w.originalYTop) /
              (w.originalYBottom - w.originalYTop) * 100))) := by
  constructor
  · have h' : ¬w.originalYBottom - w.originalYTop ≤ 0 := not_le.2 h
    induction lines with
    | nil => simp [insertWord, List.findIdx?]
    | cons line rest ih =>
      by_cases hq : 65 ≤ overlapPercentage line w
      · simp only [insertWord, if_neg h', if_pos hq, List.findIdx?_cons,
          decide_eq_true_eq, hq, if_true]
        simp [hq]
      · simp only [insertWord, if_neg h', if_neg hq]
        rw [List.findIdx?_cons]
        simp only [decide_eq_true_eq, hq, if_false]
        rw [List.findIdx?_succ]
        cases hfi : List.findIdx?
            (fun line => decide (65 ≤ overlapPercentage line w)) rest with
        | none =>
          rw [hfi] at ih
          simp only [Option.map_none']
          rw [ih]
          rfl
        | some i =>
          rw [hfi] at ih
          simp only [Option.map_some']
          rw [ih]
          rfl
  · intro line
    rfl

/-- Witness for C4: a positive-height word inserted into an empty line list
starts a new line. -/
theorem c4_first_qualifying_line_join_witness :
    (0 : ℚ) < (⟨['a'], 0, 0, 10, 50⟩ : Word).originalYBottom -
        (⟨['a'], 0, 0, 10, 50⟩ : Word).originalYTop ∧
      ((insertWord ⟨['a'], 0, 0, 10, 50⟩ [] =
        match List.findIdx?
            (fun line => decide (65 ≤ overlapPercentage line ⟨['a'], 0, 0, 10, 50⟩))
            ([] : List Line) with
        | some i =>
          List.set [] i (widenLine (List.getD [] i ⟨[], 0, 0⟩) ⟨['a'], 0, 0, 10, 50⟩)
        | none => [] ++ [⟨[⟨['a'], 0, 0, 10, 50⟩],
            (⟨['a'], 0, 0, 10, 50⟩ : Word).originalYTop,
            (⟨['a'], 0, 0, 10, 50⟩ : Word).originalYBottom⟩])
      ∧ ∀ line : Line,
          overlapPercentage line ⟨['a'], 0, 0, 10, 50⟩ =
            max 0 (min 100 (round ((min line.bottom
              (⟨['a'], 0, 0, 10, 50⟩ : Word).originalYBottom -
                max line.top (⟨['a'], 0, 0, 10, 50⟩ : Word).originalYTop) /
              ((⟨['a'], 0, 0, 10, 50⟩ : Word).originalYBottom -
                (⟨['a'], 0, 0, 10, 50⟩ : Word).originalYTop) * 100)))) :=
  ⟨by norm_num,
    c4_first_qualifying_line_join ⟨['a'], 0, 0, 10, 50⟩ [] (by norm_num)⟩

/-! ## C5: positivity of the global slot -/

lemma minLeft_le_new (o : Option ℚ) (x : ℚ) :
    ∃ L, minLeft o x = some L ∧ L ≤ x := by
  cases o with
  | none => exact ⟨x, rfl, le_refl x⟩
  | some l =>
    refine ⟨if x < l then x else l, rfl, ?_⟩
    split
    · exact le_refl x
    · exact not_lt.1 (by assumption)

lemma minLeft_mono (o : Option ℚ) (x L : ℚ) (h : o = some L) :
    ∃ L', minLeft o x = some L' ∧ L' ≤ L := by
  subst h
  refine ⟨if x < L then x else L, rfl, ?_⟩
  split
  · exact le_of_lt (by assumption)
  · exact le_refl L

lemma maxRight_ge_new (o : Option ℚ) (x : ℚ) :
    ∃ R, maxRight o x = some R ∧ x ≤ R := by
  cases o with
  | none => exact ⟨x, rfl, le_refl x⟩
  | some r =>
    refine ⟨if x > r then x else r, rfl, ?_⟩
    split
    · exact le_refl x
    · exact not_lt.1 (by assumption)

lemma maxRight_mono (o : Option ℚ) (x R : ℚ) (h : o = some R) :
    ∃ R', maxRight o x = some R' ∧ R ≤ R' := by
  subst h
  refine ⟨if x > R then x else R, rfl, ?_⟩
  split
  · exact le_of_lt (by assumption)
  · exact le_refl R

/-- The extractor's `left` / `right` extrema bound every produced word:
`left ≤ x0` and `x0 + wordWidth ≤ right`. -/
lemma processTokens_fold_bounds (document : IDocument) (page : Page) :
    ∀ (toks : List PageLine) (st : TokenScan),
      (∀ w ∈ st.words,
        (∃ L, st.left = some L ∧ L ≤ w.x0) ∧
        (∃ R, st.right = some R ∧ w.x0 + w.wordWidth ≤ R)) →
      ∀ w ∈ (toks.foldl (processTokensStep document page) st).words,
        (∃ L, (toks.foldl (processTokensStep document page) st).left = some L ∧
          L ≤ w.x0) ∧
        (∃ R, (toks.foldl (processTokensStep document page) st).right = some R ∧
          w.x0 + w.wordWidth ≤ R) := by
  intro toks
  induction toks with
  | nil => intro st h; exact h
  | cons tok toks ih =>
    intro st h
    simp only [List.foldl_cons]
    rcases processTokensStep_cases document page st tok with hstep | ⟨w', hstep⟩
    · rw [hstep]; exact ih st h
    · rw [hstep]
      refine ih _ ?_
      intro w hw
      rcases List.mem_append.1 hw with hw | hw
      · obtain ⟨⟨L, hL, hLle⟩, ⟨R, hR, hRge⟩⟩ := h w hw
        obtain ⟨L', hL', hL'le⟩ := minLeft_mono st.left w'.x0 L hL
        obtain ⟨R', hR', hR'ge⟩ := maxRight_mono st.right (w'.x0 + w'.wordWidth) R hR
        exact ⟨⟨L', hL', le_trans hL'le hLle⟩, ⟨R', hR', le_trans hRge hR'ge⟩⟩
      · rcases List.mem_singleton.1 hw with rfl
        obtain ⟨L', hL', hL'le⟩ := minLeft_le_new st.left w.x0
        obtain ⟨R', hR', hR'ge⟩ := maxRight_ge_new st.right (w.x0 + w.wordWidth)
        exact ⟨⟨L', hL', hL'le⟩, ⟨R', hR', hR'ge⟩⟩

/-- The bounds above, stated for `processTokens` itself. -/
lemma processTokens_bounds (document : IDocument) (page : Page) :
    ∀ w ∈ (processTokens document page).words,
      (∃ L, (processTokens document page).left = some L ∧ L ≤ w.x0) ∧
      (∃ R, (processTokens document page).right = some R ∧
        w.x0 + w.wordWidth ≤ R) := by
  exact processTokens_fold_bounds document page (page.lines.getD [])
    ⟨[], none, none, rowHeightSeed page⟩ (by intro w hw; cases hw)

/-- One slot-model step keeps the global slot positive when the line's word
widths are all positive: the `[min, median, max]` statistics of a positive
width list are positive, in particular the median that may replace the slot. -/
lemma computeSlotsStep_pos (u : ℚ) (acc : ℚ × List (ℚ × ℚ × ℚ)) (line : Line)
    (ha : 0 < acc.1) (hw : ∀ w ∈ line.words, 0 < w.wordWidth) :
    0 < (computeSlotsStep u acc line).1 := by
  by_cases hlen : line.words.length < 1
  · simp only [computeSlotsStep, if_pos hlen]
    exact ha
  · have hpos : ∀ q ∈ List.insertionSort (fun a b : ℚ => a ≤ b)
        (line.words.map fun w => w.wordWidth), 0 < q := by
      intro q hq
      have hq' : q ∈ line.words.map fun w => w.wordWidth :=
        (List.mem_insertionSort _).1 hq
      obtain ⟨w, hwmem, rfl⟩ := List.mem_map.1 hq'
      exact hw w hwmem
    have hlen' : (List.insertionSort (fun a b : ℚ => a ≤ b)
        (line.words.map fun w => w.wordWidth)).length = line.words.length := by
      rw [List.length_insertionSort, List.length_map]
    have hlen1 : 1 ≤ line.words.length := not_lt.1 hlen
    have hgetD : ∀ i, i < line.words.length →
        0 < (List.insertionSort (fun a b : ℚ => a ≤ b)
          (line.words.map fun w => w.wordWidth)).getD i 0 := by
      intro i hi
      rw [List.getD_eq_getElem _ _ (by rw [hlen']; exact hi)]
      exact hpos _ (List.getElem_mem _)
    simp only [computeSlotsStep, if_neg hlen]
    split
    · split
      · exact div_pos (add_pos (hgetD _ (by rw [hlen']; omega))
          (hgetD _ (by rw [hlen']; omega))) (by norm_num)
      · exact ha
    · split
      · exact hgetD _ (by rw [hlen']; omega)
      · exact ha

/-- Folding the slot-model step over lines with all-positive word widths from
a positive slot keeps the slot positive. -/
lemma computeSlots_pos (lines : List Line) (left right : ℚ)
    (hu : 0 < right - left)
    (hl : ∀ l ∈ lines, ∀ w ∈ l.words, 0 < w.wordWidth) :
    0 < (computeSlots lines left right).1 := by
  suffices aux : ∀ (ls : List Line) (acc : ℚ × List (ℚ × ℚ × ℚ)), 0 < acc.1 →
      (∀ l ∈ ls, ∀ w ∈ l.words, 0 < w.wordWidth) →
      0 < (ls.foldl (computeSlotsStep (right - left)) acc).1 by
    exact aux lines (right - left, []) hu hl
  intro ls
  induction ls with
  | nil => intro acc ha _; exact ha
  | cons l ls ih =>
    intro acc ha hws
    rw [List.foldl_cons]
    exact ih _ (computeSlotsStep_pos _ _ _ ha (hws l (List.mem_cons_self _ _)))
      fun l' hl' w hw => hws l' (List.mem_cons_of_mem _ hl') w hw

/-- The extractor's output on the mixed-width page: widths `100`, `-10`, `0`. -/
lemma processTokens_mixed_example :
    processTokens exampleDocMixedWidths examplePageMixedWidths =
      ⟨[⟨['a'], 0, 0, 10, 100⟩, ⟨['b'], 50, 0, 10, -10⟩, ⟨['c'], 60, 0, 10, 0⟩],
        some 0, some 100, some 10⟩ := by
  norm_num [processTokens, processTokensStep, exampleDocMixedWidths,
    examplePageMixedWidths, mkToken, extractTextFromLayout, jsSlice,
    rowHeightSeed, minRowHeight, minLeft, maxRight]

/-- The clusterer puts the three mixed-width words on one line. -/
lemma makeLines_mixed_example :
    makeLinesWithIntersection
        [⟨['a'], 0, 0, 10, 100⟩, ⟨['b'], 50, 0, 10, -10⟩, ⟨['c'], 60, 0, 10, 0⟩] =
      [⟨[⟨['a'], 0, 0, 10, 100⟩, ⟨['b'], 50, 0, 10, -10⟩,
        ⟨['c'], 60, 0, 10, 0⟩], 0, 10⟩] := by
  norm_num [makeLinesWithIntersection, List.insertionSort, List.orderedInsert,
    insertWord, overlapPercentage, widenLine, round_eq]

/-- The slot model on the mixed-width line: the line is significant (width
sum `90` of `usedWidth 100`) and its median width is `0`, so the global slot
collapses to `0`. -/
lemma computeSlots_mixed_example :
    (computeSlots
      [⟨[⟨['a'], 0, 0, 10, 100⟩, ⟨['b'], 50, 0, 10, -10⟩,
        ⟨['c'], 60, 0, 10, 0⟩], 0, 10⟩] 0 100).1 = 0 := by
  norm_num [computeSlots, computeSlotsStep, List.insertionSort,
    List.orderedInsert]

/-- C5 counterexample: the mixed-width page has a word of positive width
(`100`), yet its global slot is `0`, not strictly positive — words of
negative or zero width (which the source does not exclude) can drag a
significant line's median width down to zero. -/
theorem c5_counterexample_zero_slot :
    ((processTokens exampleDocMixedWidths examplePageMixedWidths).words.map
        fun w => w.wordWidth) = [100, -10, 0] ∧
      (0 : ℚ) < 100 ∧
      (computeSlots
        (makeLinesWithIntersection
          (processTokens exampleDocMixedWidths examplePageMixedWidths).words)
        ((processTokens exampleDocMixedWidths examplePageMixedWidths).left.getD 0)
        ((processTokens exampleDocMixedWidths
          examplePageMixedWidths).right.getD 0)).1 = 0 := by
  refine ⟨?_, by norm_num, ?_⟩
  · rw [processTokens_mixed_example]
    rfl
  · rw [processTokens_mixed_example]
    show (computeSlots (makeLinesWithIntersection
      [⟨['a'], 0, 0, 10, 100⟩, ⟨['b'], 50, 0, 10, -10⟩,
        ⟨['c'], 60, 0, 10, 0⟩]) 0 100).1 = 0
    rw [makeLines_mixed_example]
    exact computeSlots_mixed_example

/-- C5 (amended): for every page with at least one word, all of whose words
have positive width, the global slot computed from the clustered lines and
the page extrema is strictly positive. -/
theorem c5_positive_slot (document : IDocument) (page : Page)
    (h1 : (processTokens document page).words ≠ [])
    (h2 : ∀ w ∈ (processTokens document page).words, 0 < w.wordWidth) :
    0 < (computeSlots
        (makeLinesWithIntersection (processTokens document page).words)
        ((processTokens document page).left.getD 0)
        ((processTokens document page).right.getD 0)).1 := by
  obtain ⟨w0, ws0, hw0⟩ := List.exists_cons_of_ne_nil h1
  have hmem0 : w0 ∈ (processTokens document page).words := by
    rw [hw0]; exact List.mem_cons_self _ _
  obtain ⟨⟨L, hL, hLle⟩, ⟨R, hR, hRge⟩⟩ := processTokens_bounds document page w0 hmem0
  have hw0pos : 0 < w0.wordWidth := h2 w0 hmem0
  have hu : 0 < (processTokens document page).right.getD 0 -
      (processTokens document page).left.getD 0 := by
    rw [hL, hR]
    show 0 < R - L
    linarith
  refine computeSlots_pos _ _ _ hu ?_
  intro l hl w hw
  refine h2 w ?_
  have hflat : w ∈ (makeLinesWithIntersection
      (processTokens document page).words).flatMap Line.words :=
    List.mem_flatMap.2 ⟨l, hl, hw⟩
  exact (makeLines_words_perm _).mem_iff.1 hflat

/-- Witness for C5 on the concrete one-word page. -/
theorem c5_positive_slot_witness :
    (processTokens exampleDocOneWord examplePageOneWord).words ≠ [] ∧
      (∀ w ∈ (processTokens exampleDocOneWord examplePageOneWord).words,
        0 < w.wordWidth) ∧
      0 < (computeSlots
        (makeLinesWithIntersection
          (processTokens exampleDocOneWord examplePageOneWord).words)
        ((processTokens exampleDocOneWord examplePageOneWord).left.getD 0)
        ((processTokens exampleDocOneWord examplePageOneWord).right.getD 0)).1 :=
  ⟨by rw [processTokens_one_word_example]; exact List.cons_ne_nil _ _,
    by
      rw [processTokens_one_word_example]
      intro w hw
      rcases List.mem_singleton.1 hw with rfl
      norm_num,
    c5_positive_slot exampleDocOneWord examplePageOneWord
      (by rw [processTokens_one_word_example]; exact List.cons_ne_nil _ _)
      (by
        rw [processTokens_one_word_example]
        intro w hw
        rcases List.mem_singleton.1 hw with rfl
        norm_num)⟩

/-! ## C6 and C10 at the reachable zero slot -/

/-- C6 counterexample: the mixed-width page makes `globalSlot = 0`
reachable, and at `slot = 0` the IEEE word loop produces `NaN` space counts
for all three words of its line — `' '.repeat(NaN)` emits the empty string,
so the words `a`, `b`, `c` are rendered with zero spaces between consecutive
words, not at least one. -/
theorem c6_counterexample_zero_slot_spacing :
    (computeSlots [⟨[⟨['a'], 0, 0, 10, 100⟩, ⟨['b'], 50, 0, 10, -10⟩,
        ⟨['c'], 60, 0, 10, 0⟩], 0, 10⟩] 0 100).1 = 0 ∧
      lineTokensJS 0 0 [⟨['a'], 0, 0, 10, 100⟩, ⟨['b'], 50, 0, 10, -10⟩,
          ⟨['c'], 60, 0, 10, 0⟩] =
        [(JSNum.nan, ['a']), (JSNum.nan, ['b']), (JSNum.nan, ['c'])] ∧
      lineTextJS [(JSNum.nan, ['a']), (JSNum.nan, ['b']), (JSNum.nan, ['c'])] =
        Except.ok ['a', 'b', 'c'] := by
  refine ⟨computeSlots_mixed_example, ?_, rfl⟩
  norm_num [lineTokensJS, lineTokensStepJS, jsDivFin, jsFloorN, jsSubN,
    jsAddN, jsCeilN, jsLtN, replaceNewlines]
  decide

/-- C10 counterexample: at the reachable `slot = 0`, the IEEE renderer
completes and renders the mixed-width line as `"abc"` — a non-empty line
that does not begin with a space. -/
theorem c10_counterexample_zero_slot_leading_letter :
    renderLineTextJS 0 0 ⟨[⟨['a'], 0, 0, 10, 100⟩, ⟨['b'], 50, 0, 10, -10⟩,
        ⟨['c'], 60, 0, 10, 0⟩], 0, 10⟩ = Except.ok ['a', 'b', 'c'] ∧
      (['a', 'b', 'c'] : List Char) ≠ [] ∧ ('a' : Char) ≠ ' ' := by
  refine ⟨?_, by decide, by decide⟩
  norm_num [renderLineTextJS, lineTokensJS, lineTokensStepJS, jsDivFin,
    jsFloorN, jsSubN, jsAddN, jsCeilN, jsLtN, replaceNewlines, lineTextJS,
    lineTextJSAux, jsRepeatSpaces, jsTrimEnd, jsIsWhitespace,
    List.insertionSort, List.orderedInsert]
  decide

/-- C10 (amended): whenever the slot is nonzero, the IEEE renderer completes
without error and agrees with the exact path, whose rendered line — given at
least one word — is either the empty string or begins with a literal space;
at the reachable `slot = 0` the `NaN` path can render a non-empty line
beginning with the first word's text. -/
theorem c10_leading_space_with_nonzero_slot (left slot : ℚ) (line : Line)
    (h1 : slot ≠ 0) (h2 : line.words ≠ []) :
    renderLineTextJS left slot line = Except.ok (renderLineText left slot line) ∧
      (renderLineText left slot line = [] ∨
        ∃ t, renderLineText left slot line = ' ' :: t) :=
  ⟨renderLineTextJS_eq left slot h1 line,
    renderLineText_leading_space left slot line h2⟩

/-- Witness for C10 at `slot = 10` on a one-word line rendered as `" a"`. -/
theorem c10_leading_space_with_nonzero_slot_witness :
    ((10 : ℚ) ≠ 0) ∧
      (⟨[⟨['a'], 0, 0, 10, 50⟩], 0, 10⟩ : Line).words ≠ [] ∧
      (renderLineTextJS 0 10 ⟨[⟨['a'], 0, 0, 10, 50⟩], 0, 10⟩ =
          Except.ok (renderLineText 0 10 ⟨[⟨['a'], 0, 0, 10, 50⟩], 0, 10⟩) ∧
        (renderLineText 0 10 ⟨[⟨['a'], 0, 0, 10, 50⟩], 0, 10⟩ = [] ∨
          ∃ t, renderLineText 0 10 ⟨[⟨['a'], 0, 0, 10, 50⟩], 0, 10⟩ =
            ' ' :: t)) :=
  ⟨by norm_num, by decide,
    c10_leading_space_with_nonzero_slot 0 10 ⟨[⟨['a'], 0, 0, 10, 50⟩], 0, 10⟩
      (by norm_num) (by decide)⟩

end LayoutDoc
